import Mathlib

/-!
Verification of the piano-frontend real-time audio transport.

This file gives a shallow embedding of the core data structures and
operations of the repository:

* `RingBuffer` — the byte-oriented SPSC control queue
  (`src/libs/vital-web-sdk/src/ring_buffer.js`);
* `AudioRingBuffer` — the interleaved float SPSC audio stream buffer
  (`src/libs/vital-web-sdk/src/types.ts` / `audio_ring_buffer`);
* the synthesis worker's render-loop step and command drain
  (`src/libs/vital-web-sdk/src/piano_worker.js`);
* the worklet output callback (`src/libs/vital-web-sdk/src/piano_worklet.js`);
* the SDK orchestration layer (`src/libs/vital-web-sdk/src/index.ts` and the
  audio store's fallback logic).

Modelling conventions:

* JavaScript numbers holding the ring-buffer indices are monotonically
  increasing nonnegative integers in the source (they start at 0 and only
  grow), so they are modelled as `Nat`; every subtraction that the source
  performs on raw JS numbers is modelled in `Int` so that the embedded
  arithmetic matches JS semantics even when `readIndex > writeIndex`.
* `Uint8Array` element assignment truncates modulo 256, which is modelled
  explicitly in `storeByte`.
* Audio samples are only moved, never computed with, so the sample type is
  a type parameter `α` (instantiated with `Nat` in concrete witnesses).
* JS fractional velocities are modelled as exact rationals `ℚ`; the only
  operations performed on them in the modelled code are multiplication by
  127, `Math.floor`, and division by 127, whose values coincide with the
  float64 results on all inputs considered here.
-/

/-! ## Byte ring buffer (`ring_buffer.js`) -/

/-- One `Uint8Array` element store `this.buffer[idx % this.size] = v`:
the slot is the index modulo the buffer size and the stored value is
truncated modulo 256. -/
def storeByte (size : Nat) (buffer : Nat → Nat) (idx v : Nat) : Nat → Nat :=
  fun j => if j = idx % size then v % 256 else buffer j

/-- The payload-copy loop of `RingBuffer.write`:
`for i < data.length: buffer[(pos + i) % size] = data[i]`, performed as
successive stores starting at position `pos`. -/
def writeData (size : Nat) : (Nat → Nat) → Nat → List Nat → (Nat → Nat)
  | buffer, _, [] => buffer
  | buffer, pos, b :: rest => writeData size (storeByte size buffer pos b) (pos + 1) rest

/-- State of the byte-oriented SPSC ring buffer of `ring_buffer.js`:
a fixed `size`, the backing byte region, and the two header indices. -/
structure RingBuffer where
  size : Nat
  buffer : Nat → Nat
  writeIndex : Nat
  readIndex : Nat

/-- A freshly constructed ring buffer: `SharedArrayBuffer` memory is
zero-initialised and both indices start at 0. -/
def RingBuffer.init (size : Nat) : RingBuffer :=
  { size := size, buffer := fun _ => 0, writeIndex := 0, readIndex := 0 }

/-- `RingBuffer.write(data)` (ring_buffer.js lines 39–65): compute
`available = size - (writeIndex - readIndex)`; reject when
`available < data.length + 1`; otherwise store the one-byte length prefix,
copy the payload bytes, and publish `writeIndex + required`. -/
def RingBuffer.write (rb : RingBuffer) (data : List Nat) : RingBuffer × Bool :=
  let length := data.length
  let required := length + 1
  let available : Int := (rb.size : Int) - ((rb.writeIndex : Int) - (rb.readIndex : Int))
  if available < (required : Int) then (rb, false)
  else
    let buf1 := storeByte rb.size rb.buffer rb.writeIndex length
    let buf2 := writeData rb.size buf1 (rb.writeIndex + 1) data
    ({ rb with buffer := buf2, writeIndex := rb.writeIndex + required }, true)

/-- The consumer loop of `RingBuffer.read`:
`while readIndex < writeIndex` decode `[length][payload]` records and
advance `readIndex += length + 1`.  The loop advances `readIndex` by at
least one byte per iteration, so running it on `fuel = writeIndex -
readIndex` iterations is exhaustive; the fuel argument only makes this
termination measure structural. -/
def readLoop (size : Nat) (buffer : Nat → Nat) (writeIndex : Nat) :
    Nat → Nat → Nat × List (List Nat)
  | 0, readIndex => (readIndex, [])
  | fuel + 1, readIndex =>
      if readIndex < writeIndex then
        let length := buffer (readIndex % size)
        let payload := (List.range length).map (fun i => buffer ((readIndex + 1 + i) % size))
        let rest := readLoop size buffer writeIndex fuel (readIndex + (length + 1))
        (rest.1, payload :: rest.2)
      else (readIndex, [])

/-- `RingBuffer.read(callback)` (ring_buffer.js lines 71–106): if the buffer
is empty return immediately; otherwise decode every available record in
order, deliver each to the callback (modelled as the returned list of
payloads, in delivery order), and publish the final `readIndex` once. -/
def RingBuffer.read (rb : RingBuffer) : RingBuffer × List (List Nat) :=
  if rb.readIndex = rb.writeIndex then (rb, [])
  else
    let res := readLoop rb.size rb.buffer rb.writeIndex (rb.writeIndex - rb.readIndex) rb.readIndex
    ({ rb with readIndex := res.1 }, res.2)

/-! ## Operation sequences on the control queue -/

/-- A payload that the SDK can legally hand to `RingBuffer.write`: it comes
from a `Uint8Array`, so every element is a byte, and it fits the one-byte
length prefix. -/
def validPayload (p : List Nat) : Prop :=
  p.length ≤ 255 ∧ ∀ b ∈ p, b < 256

instance (p : List Nat) : Decidable (validPayload p) :=
  inferInstanceAs (Decidable (p.length ≤ 255 ∧ ∀ b ∈ p, b < 256))

/-- A producer/consumer operation on the control queue: a producer `write`
or a consumer `drain` (a full `read` call). -/
inductive RBOp where
  | write (data : List Nat)
  | drain

/-- Validity of an operation: writes must carry `Uint8Array`-typed payloads
of at most 255 bytes. -/
def RBOp.valid : RBOp → Prop
  | .write data => validPayload data
  | .drain => True

instance (op : RBOp) : Decidable op.valid :=
  match op with
  | .write data => inferInstanceAs (Decidable (validPayload data))
  | .drain => inferInstanceAs (Decidable True)

/-- Run a sequence of operations from a given state.  Returns the final
buffer state, the list of payloads whose `write` returned `true` (in call
order), and the list of payloads delivered to drain callbacks (in delivery
order). -/
def runOps : RingBuffer → List RBOp → RingBuffer × List (List Nat) × List (List Nat)
  | rb, [] => (rb, [], [])
  | rb, RBOp.write data :: rest =>
      let res := rb.write data
      let next := runOps res.1 rest
      (next.1, (if res.2 then [data] else []) ++ next.2.1, next.2.2)
  | rb, RBOp.drain :: rest =>
      let res := rb.read
      let next := runOps res.1 rest
      (next.1, next.2.1, res.2 ++ next.2.2)

/-! ## Encoding invariant for the control queue -/

/-- Number of bytes occupied by a queue of length-prefixed records. -/
def encLen : List (List Nat) → Nat
  | [] => 0
  | p :: rest => p.length + 1 + encLen rest

/-- The circular region starting at byte position `r` holds the
length-prefixed encodings of `pending`, record after record. -/
def encodes (size : Nat) (buffer : Nat → Nat) : Nat → List (List Nat) → Prop
  | _, [] => True
  | r, p :: rest =>
      buffer (r % size) = p.length ∧
      (∀ i, i < p.length → buffer ((r + 1 + i) % size) = p.getD i 0) ∧
      encodes size buffer (r + (p.length + 1)) rest

/-- Representation invariant of the control queue: the pending records sit
encoded between `readIndex` and `writeIndex`, occupy at most `size` bytes,
and each is a valid `Uint8Array` payload. -/
def RBInv (rb : RingBuffer) (pending : List (List Nat)) : Prop :=
  rb.writeIndex = rb.readIndex + encLen pending ∧
  encLen pending ≤ rb.size ∧
  (∀ p ∈ pending, validPayload p) ∧
  encodes rb.size rb.buffer rb.readIndex pending

/-! ## Audio ring buffer (`types.ts` / `audio_ring_buffer`) -/

/-- `Float32Array.prototype.set(src, offset)`: overwrite the contiguous
range `[offset, offset + src.length)` with the elements of `src`. -/
def setRange {α : Type} (buffer : Nat → α) (offset : Nat) (src : List α) : Nat → α :=
  fun j => if offset ≤ j ∧ j < offset + src.length then src.getD (j - offset) (buffer j) else buffer j

/-- State of the interleaved SPSC audio ring buffer: channel count, frame
capacity, backing sample region (linear sample index → sample), and the
two frame-granularity header indices.  Samples are only copied, never
computed with, so their type is a parameter. -/
structure AudioRingBuffer (α : Type) where
  channelCount : Nat
  capacity : Nat
  buffer : Nat → α
  writeIndex : Nat
  readIndex : Nat

/-- A freshly constructed audio ring buffer over zeroed shared memory
(`z` models the float zero). -/
def AudioRingBuffer.init (α : Type) (z : α) (channelCount capacity : Nat) :
    AudioRingBuffer α :=
  { channelCount := channelCount, capacity := capacity, buffer := fun _ => z,
    writeIndex := 0, readIndex := 0 }

/-- `availableWrite()`: `capacity - (writeIndex - readIndex)`, on JS
numbers, hence `Int`-valued in the model. -/
def AudioRingBuffer.availableWrite {α : Type} (arb : AudioRingBuffer α) : Int :=
  (arb.capacity : Int) - ((arb.writeIndex : Int) - (arb.readIndex : Int))

/-- `availableRead()`: `writeIndex - readIndex` on JS numbers. -/
def AudioRingBuffer.availableRead {α : Type} (arb : AudioRingBuffer α) : Int :=
  (arb.writeIndex : Int) - (arb.readIndex : Int)

/-- `AudioRingBuffer.write(inputInterleaved)` (types.ts lines 90–118):
reject with 0 frames when the requested frame count exceeds
`availableWrite()`; otherwise copy the interleaved samples with one or two
contiguous `set` operations and publish `writeIndex + framesToWrite`. -/
def AudioRingBuffer.write {α : Type} (arb : AudioRingBuffer α) (inputInterleaved : List α) :
    AudioRingBuffer α × Nat :=
  let framesToWrite := inputInterleaved.length / arb.channelCount
  let available := arb.availableWrite
  if available < (framesToWrite : Int) then (arb, 0)
  else
    let offset := (arb.writeIndex % arb.capacity) * arb.channelCount
    let samplesToWrite := inputInterleaved.length
    let bufferLength := arb.capacity * arb.channelCount
    let buffer' :=
      if offset + samplesToWrite ≤ bufferLength then
        setRange arb.buffer offset inputInterleaved
      else
        let firstChunkSamples := bufferLength - offset
        setRange (setRange arb.buffer offset (inputInterleaved.take firstChunkSamples))
          0 (inputInterleaved.drop firstChunkSamples)
    ({ arb with buffer := buffer', writeIndex := arb.writeIndex + framesToWrite },
     framesToWrite)

/-- The `deinterleave` helper defined inside `AudioRingBuffer.read`:
`for i < count: left[dst+i] = src[srcOff + 2*i]; right[dst+i] = src[srcOff + 2*i + 1]`
(the source hardcodes the two-channel stride).  The net effect on the two
destination arrays is this pair of range overwrites. -/
def deinterleave {α : Type} (src : Nat → α) (srcOffset dstOffset count : Nat)
    (leftOut rightOut : Nat → α) : (Nat → α) × (Nat → α) :=
  (fun j => if dstOffset ≤ j ∧ j < dstOffset + count then
      src (srcOffset + 2 * (j - dstOffset)) else leftOut j,
   fun j => if dstOffset ≤ j ∧ j < dstOffset + count then
      src (srcOffset + 2 * (j - dstOffset) + 1) else rightOut j)

/-- `AudioRingBuffer.read(outputChannels, framesToRead)` (types.ts lines
126–166): fail (underrun) when `framesToRead` exceeds `availableRead()`,
touching neither the indices nor the caller's output channels; otherwise
de-interleave the samples into the output channels with one or two
`deinterleave` calls and publish `readIndex + framesToRead`. -/
def AudioRingBuffer.read {α : Type} (arb : AudioRingBuffer α)
    (leftOut rightOut : Nat → α) (framesToRead : Nat) :
    AudioRingBuffer α × ((Nat → α) × (Nat → α)) × Bool :=
  let available := arb.availableRead
  if available < (framesToRead : Int) then (arb, (leftOut, rightOut), false)
  else
    let offset := (arb.readIndex % arb.capacity) * arb.channelCount
    let samplesToRead := framesToRead * arb.channelCount
    let bufferLength := arb.capacity * arb.channelCount
    if offset + samplesToRead ≤ bufferLength then
      ({ arb with readIndex := arb.readIndex + framesToRead },
       deinterleave arb.buffer offset 0 framesToRead leftOut rightOut, true)
    else
      let firstChunkSamples := bufferLength - offset
      let firstChunkFrames := firstChunkSamples / arb.channelCount
      let firstPass := deinterleave arb.buffer offset 0 firstChunkFrames leftOut rightOut
      ({ arb with readIndex := arb.readIndex + framesToRead },
       deinterleave arb.buffer 0 firstChunkFrames (framesToRead - firstChunkFrames)
         firstPass.1 firstPass.2, true)

/-- A producer/consumer operation on the audio ring buffer: a producer
`write` of an interleaved run of samples, or a consumer `read` of a number
of frames into caller-supplied output channels. -/
inductive ARBOp (α : Type) where
  | write (inputInterleaved : List α)
  | read (leftOut rightOut : Nat → α) (framesToRead : Nat)

/-- Run a sequence of audio-buffer operations, tracking the buffer state. -/
def runARB {α : Type} : AudioRingBuffer α → List (ARBOp α) → AudioRingBuffer α
  | arb, [] => arb
  | arb, ARBOp.write input :: rest => runARB (arb.write input).1 rest
  | arb, ARBOp.read l r frames :: rest => runARB (arb.read l r frames).1 rest

/-! ## Worker: command drain and render-loop step (`piano_worker.js`) -/

/-- Calls made on the opaque native engine handle. -/
inductive EngineCall where
  | noteOn (midi : Nat) (velocity : ℚ)
  | noteOff (midi : Nat)
  | render (frames : Nat)
  | loadPreset (bytes : List Nat)
  deriving DecidableEq

/-- Opcode of a note-on control record. -/
def CMD_NOTE_ON : Nat := 1

/-- Opcode of a note-off control record. -/
def CMD_NOTE_OFF : Nat := 2

/-- The control record built by `VitalSDK.noteOn`:
`new Uint8Array([CMD_NOTE_ON, midiNote, Math.floor(velocity * 127)])`.
`Uint8Array` construction truncates each element modulo 256. -/
def noteOnRecord (midiNote : Nat) (velocity : ℚ) : List Nat :=
  [CMD_NOTE_ON % 256, midiNote % 256, (Int.toNat ⌊velocity * 127⌋) % 256]

/-- The control record built by `VitalSDK.noteOff`:
`new Uint8Array([CMD_NOTE_OFF, midiNote])`. -/
def noteOffRecord (midiNote : Nat) : List Nat :=
  [CMD_NOTE_OFF % 256, midiNote % 256]

/-- The worker's per-record command callback (piano_worker.js lines
193–200): dispatch on `data[0]` and call `_note_on(data[1], data[2] / 127.0)`
or `_note_off(data[1])`. -/
def interpretCommand (data : List Nat) : List EngineCall :=
  if data.getD 0 0 = CMD_NOTE_ON then
    [EngineCall.noteOn (data.getD 1 0) ((data.getD 2 0 : ℚ) / 127)]
  else if data.getD 0 0 = CMD_NOTE_OFF then
    [EngineCall.noteOff (data.getD 1 0)]
  else []

/-- `processCommands()` (piano_worker.js lines 191–202): drain the command
ring buffer once, applying every delivered record to the engine in order.
Returns the drained buffer and the engine calls made. -/
def processCommands (rb : RingBuffer) : RingBuffer × List EngineCall :=
  ((rb.read).1, ((rb.read).2.map interpretCommand).flatten)

/-- One iteration of `renderLoop()` in the ready state (piano_worker.js
lines 204–262): drain the command queue, then gate on the buffered depth
(`availableRead ≥ TARGET_AHEAD` yields) and on the write headroom
(`availableWrite < bufferSize` backs off); otherwise render one fixed
block — the engine output, interleaved, is the `block` argument of length
`bufferSize * 2` — and write it to the audio ring buffer.  Returns the new
command-queue and audio-buffer states and whether a block was rendered. -/
def renderStep {α : Type} (targetAhead bufferSize : Nat) (block : List α)
    (cmdRB : RingBuffer) (arb : AudioRingBuffer α) :
    (RingBuffer × AudioRingBuffer α) × Bool :=
  let cmd := (processCommands cmdRB).1
  if (targetAhead : Int) ≤ arb.availableRead then ((cmd, arb), false)
  else if arb.availableWrite < (bufferSize : Int) then ((cmd, arb), false)
  else ((cmd, (arb.write block).1), true)

/-! ## Worklet output callback (`piano_worklet.js`) -/

/-- `VitalProcessor.process` (piano_worklet.js lines 35–54) with stereo
output channels present: if the ring buffer has been received, attempt a
single `read` of one quantum; the success flag is only used for a debug
warning; the callback always returns `true`. -/
def VitalProcessor.process {α : Type} (audioRingBuffer : Option (AudioRingBuffer α))
    (channelL channelR : Nat → α) (quantumFrames : Nat) :
    Option (AudioRingBuffer α) × ((Nat → α) × (Nat → α)) × Bool :=
  match audioRingBuffer with
  | none => (none, (channelL, channelR), true)
  | some arb =>
      let res := arb.read channelL channelR quantumFrames
      (some res.1, res.2.1, true)

/-! ## SDK orchestration (`index.ts` and the audio store) -/

/-- Abstract orchestrator state of `VitalSDK` (index.ts).  The engine
handle (`moduleInstance`) is modelled by the list of calls made on it; the
worker context's own engine is out of frame here (it is modelled by
`processCommands` above).  `workerPosts` records the `load-preset`
payloads posted to the worker. -/
structure SDKModel (α : Type) where
  useWorklet : Bool
  initialized : Bool
  hasWorker : Bool
  moduleInstance : Option (List EngineCall)
  ringBuffer : Option RingBuffer
  audioRingBuffer : Option (AudioRingBuffer α)
  workerPosts : List (List Nat)

/-- `VitalSDK.init()` (index.ts lines 86–132 with `_initWorkletAndWorker`
/ `_loadWasm` / `_initScriptProcessor`): in worklet mode, allocate the
4096-byte command ring buffer and the 4096-frame stereo audio ring buffer,
spawn the worker and await the handshake — the host environment's ability
to complete all of this is abstracted as `envOk`, and on failure `init`
rejects with no state constructed; in legacy mode, load the engine into the
calling context and register the synchronous ScriptProcessor render
callback, allocating no ring buffers. -/
def VitalSDK.init (α : Type) (useWorklet envOk : Bool) (z : α) :
    Except String (SDKModel α) :=
  if useWorklet then
    if envOk then
      Except.ok { useWorklet := true, initialized := true, hasWorker := true,
                  moduleInstance := none,
                  ringBuffer := some (RingBuffer.init 4096),
                  audioRingBuffer := some (AudioRingBuffer.init α z 2 4096),
                  workerPosts := [] }
    else Except.error "Failed to load worklet"
  else
    Except.ok { useWorklet := false, initialized := true, hasWorker := false,
                moduleInstance := some [], ringBuffer := none,
                audioRingBuffer := none, workerPosts := [] }

/-- The audio store's `initialize()` fallback strategy (stores/audio):
try the worklet configuration first; if that initialization throws, retry
once with `useWorklet := false` (ScriptProcessor); in forced-legacy mode a
failure is re-thrown. -/
def initAudioStore (α : Type) (envOk forceScriptProcessor : Bool) (z : α) :
    Except String (SDKModel α) :=
  let shouldUseWorklet := !forceScriptProcessor
  match VitalSDK.init α shouldUseWorklet envOk z with
  | Except.ok v => Except.ok v
  | Except.error e =>
      if shouldUseWorklet then VitalSDK.init α false envOk z
      else Except.error e

/-- `VitalSDK.noteOn(midiNote, velocity)` (index.ts lines 273–284): in
dual-context mode, write the three-byte control record into the command
ring buffer; otherwise call `_note_on` on the local engine handle with the
unmodified arguments. -/
def SDKModel.noteOn {α : Type} (sdk : SDKModel α) (midiNote : Nat) (velocity : ℚ) :
    SDKModel α :=
  if !sdk.initialized then sdk
  else if sdk.useWorklet && sdk.hasWorker && sdk.ringBuffer.isSome then
    { sdk with ringBuffer :=
        sdk.ringBuffer.map (fun rb => (rb.write (noteOnRecord midiNote velocity)).1) }
  else if sdk.moduleInstance.isSome then
    { sdk with moduleInstance :=
        sdk.moduleInstance.map (fun calls => calls ++ [EngineCall.noteOn midiNote velocity]) }
  else sdk

/-- `VitalSDK.noteOff(midiNote)` (index.ts lines 289–297). -/
def SDKModel.noteOff {α : Type} (sdk : SDKModel α) (midiNote : Nat) : SDKModel α :=
  if !sdk.initialized then sdk
  else if sdk.useWorklet && sdk.hasWorker && sdk.ringBuffer.isSome then
    { sdk with ringBuffer :=
        sdk.ringBuffer.map (fun rb => (rb.write (noteOffRecord midiNote)).1) }
  else if sdk.moduleInstance.isSome then
    { sdk with moduleInstance :=
        sdk.moduleInstance.map (fun calls => calls ++ [EngineCall.noteOff midiNote]) }
  else sdk

/-- The ScriptProcessor `onaudioprocess` handler (index.ts lines 238–243
and `_render`, lines 251–268): on each output quantum, synchronously render
one block of the quantum's length on the local engine handle. -/
def SDKModel.onAudioProcess {α : Type} (sdk : SDKModel α) (frames : Nat) : SDKModel α :=
  { sdk with moduleInstance :=
      sdk.moduleInstance.map (fun calls => calls ++ [EngineCall.render frames]) }

/-- A preset payload as seen by `VitalSDK.loadPreset`.  The host-side
decode pipeline (gunzip, UTF-8 decode, `JSON.parse`, ASCII cleanup) are
host primitives, so a payload is modelled by its two observable outcomes:
`malformed` (the decode/parse step throws) or `wellFormed bytes
engineAccepts`, carrying the cleaned UTF-8 bytes and whether the opaque
engine's `_load_preset` returns 0 for them. -/
inductive PresetPayload where
  | malformed
  | wellFormed (bytes : List Nat) (engineAccepts : Bool)

/-- `VitalSDK.loadPreset(preset)` (index.ts lines 302–342): throw when not
initialized; decode and parse the payload — a malformed payload throws
here, before any engine or worker interaction; in worklet mode post the
cleaned bytes to the worker (the promise then resolves; the worker's own
`loadPreset`, piano_worker.js lines 167–189, swallows engine errors); in
legacy mode call `_load_preset` on the local engine and throw when it
returns nonzero.  The state is threaded explicitly so that a thrown error
demonstrably leaves it unchanged. -/
def SDKModel.loadPreset {α : Type} (sdk : SDKModel α) (preset : PresetPayload) :
    SDKModel α × Except String Unit :=
  if !sdk.initialized then (sdk, Except.error "VitalSDK not initialized")
  else
    match preset with
    | PresetPayload.malformed => (sdk, Except.error "PresetLoadFailure")
    | PresetPayload.wellFormed bytes engineAccepts =>
        if sdk.useWorklet then
          if sdk.hasWorker then
            ({ sdk with workerPosts := sdk.workerPosts ++ [bytes] }, Except.ok ())
          else (sdk, Except.ok ())
        else
          match sdk.moduleInstance with
          | some calls =>
              let calls' := calls ++ [EngineCall.loadPreset bytes]
              let sdk' := { sdk with moduleInstance := some calls' }
              if engineAccepts then (sdk', Except.ok ())
              else (sdk', Except.error "Failed to load preset")
          | none => (sdk, Except.ok ())

/-! ## Arithmetic and buffer-slot lemmas -/

theorem mod_ne_of_sub_lt (size a b : Nat) (hab : a < b) (h : b - a < size) :
    a % size ≠ b % size := by
  intro h'
  have hd : size ∣ b - a := (Nat.modEq_iff_dvd' (Nat.le_of_lt hab)).mp h'
  have := Nat.le_of_dvd (by omega) hd
  omega

theorem range_map_getD :
    ∀ (l : List Nat) (f : Nat → Nat), (∀ i, i < l.length → f i = l.getD i 0) →
      (List.range l.length).map f = l := by
  intro l
  induction l with
  | nil => intro f _; rfl
  | cons a tl ih =>
      intro f h
      rw [List.length_cons, List.range_succ_eq_map, List.map_cons, List.map_map]
      have h0 : f 0 = a := h 0 (by simp only [List.length_cons]; omega)
      rw [h0]
      congr 1
      exact ih (f ∘ Nat.succ) (fun i hi => h (i + 1) (by simp only [List.length_cons]; omega))

theorem writeData_preserve (size : Nat) :
    ∀ (data : List Nat) (pos : Nat) (buffer : Nat → Nat) (j : Nat),
      (∀ i, i < data.length → (pos + i) % size ≠ j) →
      writeData size buffer pos data j = buffer j := by
  intro data
  induction data with
  | nil => intro pos buffer j _; rfl
  | cons b rest ih =>
      intro pos buffer j h
      show writeData size (storeByte size buffer pos b) (pos + 1) rest j = buffer j
      rw [ih (pos + 1) _ j ?_]
      · show (if j = pos % size then b % 256 else buffer j) = buffer j
        rw [if_neg ?_]
        intro hj
        exact h 0 (by simp) (by simpa using hj.symm)
      · intro i hi
        have h' := h (i + 1) (by simp; omega)
        rw [show pos + 1 + i = pos + (i + 1) by omega]
        exact h'

theorem writeData_get (size : Nat) :
    ∀ (data : List Nat) (pos : Nat) (buffer : Nat → Nat) (i : Nat),
      i < data.length → data.length ≤ size →
      writeData size buffer pos data ((pos + i) % size) = data.getD i 0 % 256 := by
  intro data
  induction data with
  | nil => intro pos buffer i hi _; simp at hi
  | cons b rest ih =>
      intro pos buffer i hi hle
      match i with
      | 0 =>
          show writeData size (storeByte size buffer pos b) (pos + 1) rest ((pos + 0) % size) = _
          rw [writeData_preserve size rest (pos + 1) _ _ ?_]
          · show (if (pos + 0) % size = pos % size then b % 256 else _) = _
            rw [if_pos (by rw [Nat.add_zero])]
            rfl
          · intro i' hi'
            refine (mod_ne_of_sub_lt size (pos + 0) (pos + 1 + i') (by omega) ?_).symm
            simp at hle
            omega
      | i' + 1 =>
          show writeData size (storeByte size buffer pos b) (pos + 1) rest ((pos + (i' + 1)) % size) = _
          rw [show pos + (i' + 1) = (pos + 1) + i' by omega]
          rw [ih (pos + 1) _ i' (by simp at hi; omega) (by simp at hle; omega)]
          rfl

/-! ## Lemmas about the encoding invariant -/

theorem encLen_append : ∀ (l1 l2 : List (List Nat)), encLen (l1 ++ l2) = encLen l1 + encLen l2 := by
  intro l1 l2
  induction l1 with
  | nil => simp [encLen]
  | cons p rest ih => simp [encLen, ih]; omega

theorem length_le_encLen : ∀ (l : List (List Nat)), l.length ≤ encLen l := by
  intro l
  induction l with
  | nil => simp [encLen]
  | cons p rest ih => simp [encLen]; omega

theorem encLen_eq_zero : ∀ (l : List (List Nat)), encLen l = 0 → l = [] := by
  intro l h
  cases l with
  | nil => rfl
  | cons p rest => simp [encLen] at h

theorem encodes_congr (size : Nat) (buf buf' : Nat → Nat) :
    ∀ (pending : List (List Nat)) (r : Nat),
      (∀ k, r ≤ k → k < r + encLen pending → buf' (k % size) = buf (k % size)) →
      encodes size buf r pending → encodes size buf' r pending := by
  intro pending
  induction pending with
  | nil => intro r _ _; trivial
  | cons p rest ih =>
      intro r h he
      obtain ⟨hlen, hbytes, hrest⟩ := he
      refine ⟨?_, ?_, ?_⟩
      · rw [h r (Nat.le_refl r) (by simp only [encLen]; omega)]
        exact hlen
      · intro i hi
        rw [h (r + 1 + i) (by omega) (by simp only [encLen]; omega)]
        exact hbytes i hi
      · refine ih (r + (p.length + 1)) (fun k hk1 hk2 => h k (by omega) ?_) hrest
        simp only [encLen]
        omega

theorem encodes_append (size : Nat) (buf : Nat → Nat) :
    ∀ (l1 l2 : List (List Nat)) (r : Nat),
      encodes size buf r l1 → encodes size buf (r + encLen l1) l2 →
      encodes size buf r (l1 ++ l2) := by
  intro l1
  induction l1 with
  | nil =>
      intro l2 r _ h2
      simpa [encLen] using h2
  | cons p rest ih =>
      intro l2 r h1 h2
      obtain ⟨hlen, hbytes, hrest⟩ := h1
      refine ⟨hlen, hbytes, ?_⟩
      refine ih l2 (r + (p.length + 1)) hrest ?_
      have : r + (p.length + 1) + encLen rest = r + encLen (p :: rest) := by
        simp [encLen]; omega
      rw [this]
      exact h2

theorem readLoop_succ (size : Nat) (buffer : Nat → Nat) (w f r : Nat) (h : r < w) :
    readLoop size buffer w (f + 1) r =
      ((readLoop size buffer w f (r + (buffer (r % size) + 1))).1,
       ((List.range (buffer (r % size))).map (fun i => buffer ((r + 1 + i) % size))) ::
         (readLoop size buffer w f (r + (buffer (r % size) + 1))).2) := by
  show (if r < w then _ else _) = _
  rw [if_pos h]

theorem readLoop_stop (size : Nat) (buffer : Nat → Nat) (w fuel r : Nat) (h : ¬ r < w) :
    readLoop size buffer w fuel r = (r, []) := by
  cases fuel with
  | zero => rfl
  | succ f =>
      show (if r < w then _ else _) = _
      rw [if_neg h]

theorem readLoop_encodes (size : Nat) (buffer : Nat → Nat) :
    ∀ (pending : List (List Nat)) (fuel r w : Nat),
      encodes size buffer r pending →
      w = r + encLen pending →
      pending.length ≤ fuel →
      readLoop size buffer w fuel r = (w, pending) := by
  intro pending
  induction pending with
  | nil =>
      intro fuel r w _ hw _
      have : ¬ r < w := by
        subst hw
        have h0 : encLen ([] : List (List Nat)) = 0 := rfl
        omega
      rw [readLoop_stop size buffer w fuel r this]
      subst hw
      rfl
  | cons p rest ih =>
      intro fuel r w he hw hf
      obtain ⟨hlen, hbytes, hrest⟩ := he
      cases fuel with
      | zero => simp at hf
      | succ f =>
          have hlt : r < w := by
            subst hw; simp only [encLen]; omega
          rw [readLoop_succ size buffer w f r hlt, hlen]
          rw [range_map_getD p _ (fun i hi => hbytes i hi)]
          rw [ih f (r + (p.length + 1)) w hrest (by subst hw; simp only [encLen]; omega)
            (by simp only [List.length_cons] at hf; omega)]

/-! ## Behaviour of write and read on the invariant -/

theorem write_reject (rb : RingBuffer) (data : List Nat)
    (h : (rb.size : Int) - ((rb.writeIndex : Int) - (rb.readIndex : Int)) <
      ((data.length + 1 : Nat) : Int)) :
    rb.write data = (rb, false) := by
  simp only [RingBuffer.write]
  rw [if_pos h]

theorem write_accept (rb : RingBuffer) (data : List Nat)
    (h : ¬ ((rb.size : Int) - ((rb.writeIndex : Int) - (rb.readIndex : Int)) <
      ((data.length + 1 : Nat) : Int))) :
    rb.write data =
      ({ rb with
          buffer := writeData rb.size (storeByte rb.size rb.buffer rb.writeIndex data.length)
                      (rb.writeIndex + 1) data,
          writeIndex := rb.writeIndex + (data.length + 1) }, true) := by
  simp only [RingBuffer.write]
  rw [if_neg h]

theorem write_inv (rb : RingBuffer) (pending : List (List Nat)) (data : List Nat)
    (hinv : RBInv rb pending) (hvp : validPayload data)
    (hfit : encLen pending + (data.length + 1) ≤ rb.size) :
    (rb.write data).2 = true ∧ RBInv (rb.write data).1 (pending ++ [data]) := by
  obtain ⟨hw, hsz, hval, henc⟩ := hinv
  have hguard : ¬ ((rb.size : Int) - ((rb.writeIndex : Int) - (rb.readIndex : Int)) <
      ((data.length + 1 : Nat) : Int)) := by
    push_cast
    omega
  rw [write_accept rb data hguard]
  refine ⟨rfl, ?_, ?_, ?_, ?_⟩
  · show rb.writeIndex + (data.length + 1) = rb.readIndex + encLen (pending ++ [data])
    rw [encLen_append]
    simp only [encLen]
    omega
  · show encLen (pending ++ [data]) ≤ rb.size
    rw [encLen_append]
    simp only [encLen]
    omega
  · intro p hp
    rcases List.mem_append.mp hp with hp | hp
    · exact hval p hp
    · rw [List.mem_singleton.mp hp]
      exact hvp
  · show encodes rb.size
      (writeData rb.size (storeByte rb.size rb.buffer rb.writeIndex data.length)
        (rb.writeIndex + 1) data) rb.readIndex (pending ++ [data])
    have hlen255 := hvp.1
    have hbytes := hvp.2
    have hdlt : data.length < rb.size := by omega
    refine encodes_append rb.size _ pending [data] rb.readIndex ?_ ?_
    · refine encodes_congr rb.size rb.buffer _ pending rb.readIndex ?_ henc
      intro k hk1 hk2
      rw [writeData_preserve rb.size data (rb.writeIndex + 1) _ (k % rb.size) ?_]
      · show (if k % rb.size = rb.writeIndex % rb.size then _ else rb.buffer (k % rb.size)) =
          rb.buffer (k % rb.size)
        rw [if_neg]
        exact mod_ne_of_sub_lt rb.size k rb.writeIndex (by omega) (by omega)
      · intro i hi
        refine (mod_ne_of_sub_lt rb.size k (rb.writeIndex + 1 + i) (by omega) (by omega)).symm
    · rw [← hw]
      refine ⟨?_, ?_, trivial⟩
      · rw [writeData_preserve rb.size data (rb.writeIndex + 1) _ (rb.writeIndex % rb.size) ?_]
        · show (if rb.writeIndex % rb.size = rb.writeIndex % rb.size then data.length % 256
              else _) = data.length
          rw [if_pos rfl]
          exact Nat.mod_eq_of_lt (by omega)
        · intro i hi
          refine (mod_ne_of_sub_lt rb.size rb.writeIndex (rb.writeIndex + 1 + i)
            (by omega) (by omega)).symm
      · intro i hi
        rw [show rb.writeIndex + 1 + i = (rb.writeIndex + 1) + i from rfl]
        rw [writeData_get rb.size data (rb.writeIndex + 1) _ i hi (by omega)]
        refine Nat.mod_eq_of_lt (hbytes _ ?_)
        rw [List.getD_eq_getElem data 0 hi]
        exact List.getElem_mem hi

theorem read_of_inv (rb : RingBuffer) (pending : List (List Nat))
    (hinv : RBInv rb pending) :
    rb.read = ({ rb with readIndex := rb.writeIndex }, pending) := by
  obtain ⟨hw, hsz, hval, henc⟩ := hinv
  by_cases h : rb.readIndex = rb.writeIndex
  · have h0 : encLen pending = 0 := by omega
    have hp : pending = [] := encLen_eq_zero pending h0
    subst hp
    simp only [RingBuffer.read, if_pos h]
    cases rb with
    | mk size buffer writeIndex readIndex =>
        simp only at h
        simp [h]
  · simp only [RingBuffer.read, if_neg h]
    rw [readLoop_encodes rb.size rb.buffer pending (rb.writeIndex - rb.readIndex)
      rb.readIndex rb.writeIndex henc hw ?_]
    have := length_le_encLen pending
    omega

/-! ## Runs of operations preserve the invariant -/

theorem runOps_inv :
    ∀ (ops : List RBOp) (rb : RingBuffer) (pending : List (List Nat)),
      RBInv rb pending → (∀ op ∈ ops, op.valid) →
      ∃ pending',
        RBInv (runOps rb ops).1 pending' ∧
        (runOps rb ops).2.2 ++ pending' = pending ++ (runOps rb ops).2.1 := by
  intro ops
  induction ops with
  | nil =>
      intro rb pending hinv _
      exact ⟨pending, hinv, by simp [runOps]⟩
  | cons op rest ih =>
      intro rb pending hinv hv
      have hvrest : ∀ o ∈ rest, o.valid := fun o ho => hv o (List.mem_cons_of_mem _ ho)
      match op with
      | RBOp.write data =>
          have hvd : validPayload data := hv _ (List.mem_cons_self _ _)
          by_cases hg : (rb.size : Int) - ((rb.writeIndex : Int) - (rb.readIndex : Int)) <
              ((data.length + 1 : Nat) : Int)
          · have hrun : runOps rb (RBOp.write data :: rest) = runOps rb rest := by
              simp [runOps, write_reject rb data hg]
            rw [hrun]
            exact ih rb pending hinv hvrest
          · have hfit : encLen pending + (data.length + 1) ≤ rb.size := by
              have h1 := hinv.1
              push_cast at hg
              omega
            obtain ⟨htrue, hinv'⟩ := write_inv rb pending data hinv hvd hfit
            have hrun : runOps rb (RBOp.write data :: rest) =
                ((runOps (rb.write data).1 rest).1,
                 data :: (runOps (rb.write data).1 rest).2.1,
                 (runOps (rb.write data).1 rest).2.2) := by
              simp [runOps, htrue]
            rw [hrun]
            obtain ⟨p', hinvp, heq⟩ := ih (rb.write data).1 (pending ++ [data]) hinv' hvrest
            exact ⟨p', hinvp, by simp [heq]⟩
      | RBOp.drain =>
          have hread := read_of_inv rb pending hinv
          have hinv0 : RBInv { rb with readIndex := rb.writeIndex } [] := by
            refine ⟨?_, ?_, ?_, trivial⟩
            · simp [encLen]
            · simp [encLen]
            · simp
          have hrun : runOps rb (RBOp.drain :: rest) =
              ((runOps { rb with readIndex := rb.writeIndex } rest).1,
               (runOps { rb with readIndex := rb.writeIndex } rest).2.1,
               pending ++ (runOps { rb with readIndex := rb.writeIndex } rest).2.2) := by
            simp [runOps, hread]
          rw [hrun]
          obtain ⟨p', hinvp, heq⟩ := ih { rb with readIndex := rb.writeIndex } [] hinv0 hvrest
          refine ⟨p', hinvp, ?_⟩
          simp at heq
          simp [heq]

theorem runOps_append :
    ∀ (l1 l2 : List RBOp) (rb : RingBuffer),
      runOps rb (l1 ++ l2) =
        ((runOps (runOps rb l1).1 l2).1,
         (runOps rb l1).2.1 ++ (runOps (runOps rb l1).1 l2).2.1,
         (runOps rb l1).2.2 ++ (runOps (runOps rb l1).1 l2).2.2) := by
  intro l1
  induction l1 with
  | nil => intro l2 rb; simp [runOps]
  | cons op rest ih =>
      intro l2 rb
      cases op with
      | write data => simp [runOps, ih]
      | drain => simp [runOps, ih]

theorem init_inv (size : Nat) : RBInv (RingBuffer.init size) [] := by
  refine ⟨rfl, ?_, ?_, trivial⟩
  · simp [encLen, RingBuffer.init]
  · simp

theorem ARB_write_reject {α : Type} (arb : AudioRingBuffer α) (input : List α)
    (h : arb.availableWrite < ((input.length / arb.channelCount : Nat) : Int)) :
    arb.write input = (arb, 0) := by
  simp only [AudioRingBuffer.write]
  rw [if_pos h]

theorem ARB_write_accept_state {α : Type} (arb : AudioRingBuffer α) (input : List α)
    (h : ¬ arb.availableWrite < ((input.length / arb.channelCount : Nat) : Int)) :
    (arb.write input).1.writeIndex = arb.writeIndex + input.length / arb.channelCount ∧
    (arb.write input).1.readIndex = arb.readIndex ∧
    (arb.write input).1.capacity = arb.capacity ∧
    (arb.write input).1.channelCount = arb.channelCount ∧
    (arb.write input).2 = input.length / arb.channelCount := by
  simp only [AudioRingBuffer.write]
  rw [if_neg h]
  exact ⟨rfl, rfl, rfl, rfl, rfl⟩

theorem ARB_read_reject {α : Type} (arb : AudioRingBuffer α) (leftOut rightOut : Nat → α)
    (framesToRead : Nat) (h : arb.availableRead < (framesToRead : Int)) :
    arb.read leftOut rightOut framesToRead = (arb, (leftOut, rightOut), false) := by
  simp only [AudioRingBuffer.read]
  rw [if_pos h]

theorem ARB_read_accept_state {α : Type} (arb : AudioRingBuffer α) (leftOut rightOut : Nat → α)
    (framesToRead : Nat) (h : ¬ arb.availableRead < (framesToRead : Int)) :
    (arb.read leftOut rightOut framesToRead).1 =
      { arb with readIndex := arb.readIndex + framesToRead } ∧
    (arb.read leftOut rightOut framesToRead).2.2 = true := by
  simp only [AudioRingBuffer.read]
  rw [if_neg h]
  by_cases hb : (arb.readIndex % arb.capacity) * arb.channelCount +
      framesToRead * arb.channelCount ≤ arb.capacity * arb.channelCount
  · rw [if_pos hb]
    exact ⟨rfl, rfl⟩
  · rw [if_neg hb]
    exact ⟨rfl, rfl⟩

theorem runARB_inv {α : Type} :
    ∀ (ops : List (ARBOp α)) (arb : AudioRingBuffer α),
      arb.readIndex ≤ arb.writeIndex →
      arb.writeIndex ≤ arb.readIndex + arb.capacity →
      (runARB arb ops).readIndex ≤ (runARB arb ops).writeIndex ∧
      (runARB arb ops).writeIndex ≤ (runARB arb ops).readIndex + (runARB arb ops).capacity := by
  intro ops
  induction ops with
  | nil => intro arb h1 h2; exact ⟨h1, h2⟩
  | cons op rest ih =>
      intro arb h1 h2
      cases op with
      | write input =>
          simp only [runARB]
          by_cases hg : arb.availableWrite < ((input.length / arb.channelCount : Nat) : Int)
          · rw [ARB_write_reject arb input hg]
            exact ih arb h1 h2
          · obtain ⟨hw, hr, hc, _, _⟩ := ARB_write_accept_state arb input hg
            refine ih (arb.write input).1 ?_ ?_
            · rw [hw, hr]
              omega
            · rw [hw, hr, hc]
              simp only [AudioRingBuffer.availableWrite] at hg
              omega
      | read leftOut rightOut frames =>
          simp only [runARB]
          by_cases hg : arb.availableRead < (frames : Int)
          · rw [ARB_read_reject arb leftOut rightOut frames hg]
            exact ih arb h1 h2
          · rw [(ARB_read_accept_state arb leftOut rightOut frames hg).1]
            refine ih _ ?_ ?_
            · show arb.readIndex + frames ≤ arb.writeIndex
              simp only [AudioRingBuffer.availableRead] at hg
              omega
            · show arb.writeIndex ≤ arb.readIndex + frames + arb.capacity
              omega

theorem readLoop_fst_go (size : Nat) (buffer : Nat → Nat) (w fuel r : Nat)
    (h : r < w) (hf : fuel ≠ 0) :
    (readLoop size buffer w fuel r).1 =
      (readLoop size buffer w (fuel - 1) (r + (buffer (r % size) + 1))).1 := by
  cases fuel with
  | zero => exact absurd rfl hf
  | succ f =>
      rw [readLoop_succ size buffer w f r h]
      simp

theorem readLoop_snd_go (size : Nat) (buffer : Nat → Nat) (w fuel r : Nat)
    (h : r < w) (hf : fuel ≠ 0) :
    (readLoop size buffer w fuel r).2 =
      ((List.range (buffer (r % size))).map (fun i => buffer ((r + 1 + i) % size))) ::
        (readLoop size buffer w (fuel - 1) (r + (buffer (r % size) + 1))).2 := by
  cases fuel with
  | zero => exact absurd rfl hf
  | succ f =>
      rw [readLoop_succ size buffer w f r h]
      simp

/-- C3: Overflow rejection is total and atomic.  A `RingBuffer.write` whose
record does not fit the free space returns `false` and leaves the state
(bytes and both indices) unchanged; an `AudioRingBuffer.write` whose frame
count exceeds `availableWrite()` returns 0 and leaves the state unchanged;
in particular a single write of `capacity + 1` bytes or frames is always
rejected entirely whenever `readIndex ≤ writeIndex`. -/
theorem overflow_rejection :
    (∀ (rb : RingBuffer) (data : List Nat),
      (rb.size : Int) - ((rb.writeIndex : Int) - (rb.readIndex : Int)) <
        ((data.length + 1 : Nat) : Int) →
      rb.write data = (rb, false)) ∧
    (∀ (rb : RingBuffer) (data : List Nat),
      rb.readIndex ≤ rb.writeIndex → data.length = rb.size + 1 →
      rb.write data = (rb, false)) ∧
    (∀ (α : Type) (arb : AudioRingBuffer α) (input : List α),
      arb.availableWrite < ((input.length / arb.channelCount : Nat) : Int) →
      arb.write input = (arb, 0)) ∧
    (∀ (α : Type) (arb : AudioRingBuffer α) (input : List α),
      arb.readIndex ≤ arb.writeIndex → input.length / arb.channelCount = arb.capacity + 1 →
      arb.write input = (arb, 0)) := by
  refine ⟨?_, ?_, ?_, ?_⟩
  · exact fun rb data h => write_reject rb data h
  · intro rb data hrw hlen
    refine write_reject rb data ?_
    rw [hlen]
    push_cast
    omega
  · exact fun α arb input h => ARB_write_reject arb input h
  · intro α arb input hrw hlen
    refine ARB_write_reject arb input ?_
    rw [hlen]
    simp only [AudioRingBuffer.availableWrite]
    push_cast
    omega

/-- Witness for C3 at concrete inputs: a 2-byte record rejected with one
free byte; a `size + 1`-byte record rejected on an empty byte buffer; a
2-frame write rejected with 1 free frame; a `capacity + 1`-frame write
rejected on an empty audio buffer — all leaving the state unchanged. -/
theorem overflow_rejection_witness :
    (RingBuffer.mk 4 (fun _ => 0) 3 0).write [7, 7] = (RingBuffer.mk 4 (fun _ => 0) 3 0, false) ∧
    (RingBuffer.init 8).write (List.replicate 9 0) = (RingBuffer.init 8, false) ∧
    (AudioRingBuffer.mk 2 4 (fun _ => (0 : Nat)) 3 0).write (List.replicate 4 0) =
      (AudioRingBuffer.mk 2 4 (fun _ => (0 : Nat)) 3 0, 0) ∧
    (AudioRingBuffer.init Nat 0 2 4).write (List.replicate 10 0) =
      (AudioRingBuffer.init Nat 0 2 4, 0) :=
  ⟨overflow_rejection.1 (RingBuffer.mk 4 (fun _ => 0) 3 0) [7, 7] (by decide),
   overflow_rejection.2.1 (RingBuffer.init 8) (List.replicate 9 0) (by decide) (by decide),
   overflow_rejection.2.2.1 Nat (AudioRingBuffer.mk 2 4 (fun _ => 0) 3 0)
     (List.replicate 4 0) (by decide),
   overflow_rejection.2.2.2 Nat (AudioRingBuffer.init Nat 0 2 4)
     (List.replicate 10 0) (by decide) (by decide)⟩

/-- C4: Underrun rejection has no partial effect.  When `framesToRead`
exceeds `availableRead()`, `AudioRingBuffer.read` returns `false` and
leaves both header indices, the buffer contents, and both caller-supplied
output channel arrays completely unchanged. -/
theorem underrun_rejection (α : Type) (arb : AudioRingBuffer α)
    (leftOut rightOut : Nat → α) (framesToRead : Nat)
    (h : arb.availableRead < (framesToRead : Int)) :
    arb.read leftOut rightOut framesToRead = (arb, (leftOut, rightOut), false) :=
  ARB_read_reject arb leftOut rightOut framesToRead h

/-- Witness for C4: reading one output quantum from an empty audio buffer
fails and changes nothing. -/
theorem underrun_rejection_witness :
    (AudioRingBuffer.init Nat 0 2 4096).availableRead < ((128 : Nat) : Int) ∧
    (AudioRingBuffer.init Nat 0 2 4096).read (fun _ => 0) (fun _ => 0) 128 =
      (AudioRingBuffer.init Nat 0 2 4096, ((fun _ => 0), (fun _ => 0)), false) :=
  ⟨by decide, underrun_rejection Nat (AudioRingBuffer.init Nat 0 2 4096)
    (fun _ => 0) (fun _ => 0) 128 (by decide)⟩

/-- C5: Render-loop gating never over-renders.  In one iteration of the
worker render loop: when the buffered depth has reached `targetAhead`, or
the write headroom is below one block, no block is rendered and the audio
buffer is untouched; otherwise exactly one `bufferSize`-frame block is
written (producer index advances by exactly `bufferSize`, consumer index
untouched).  Consequently one producer step never raises `availableRead()`
above `targetAhead + bufferSize - 1`. -/
theorem renderLoop_gating (α : Type) (targetAhead bufferSize : Nat) (block : List α)
    (cmdRB : RingBuffer) (arb : AudioRingBuffer α)
    (hcc : arb.channelCount = 2) (hlen : block.length = 2 * bufferSize) :
    (((targetAhead : Int) ≤ arb.availableRead ∨ arb.availableWrite < (bufferSize : Int)) →
      (renderStep targetAhead bufferSize block cmdRB arb).1.2 = arb ∧
      (renderStep targetAhead bufferSize block cmdRB arb).2 = false) ∧
    (¬ (targetAhead : Int) ≤ arb.availableRead →
      ¬ arb.availableWrite < (bufferSize : Int) →
      (renderStep targetAhead bufferSize block cmdRB arb).2 = true ∧
      (renderStep targetAhead bufferSize block cmdRB arb).1.2.writeIndex =
        arb.writeIndex + bufferSize ∧
      (renderStep targetAhead bufferSize block cmdRB arb).1.2.readIndex = arb.readIndex) ∧
    ((renderStep targetAhead bufferSize block cmdRB arb).1.2.availableRead ≤
        arb.availableRead ∨
      (renderStep targetAhead bufferSize block cmdRB arb).1.2.availableRead ≤
        (targetAhead : Int) + (bufferSize : Int) - 1) := by
  have hframes : block.length / arb.channelCount = bufferSize := by
    rw [hlen, hcc]
    exact Nat.mul_div_cancel_left bufferSize (by norm_num)
  by_cases h1 : (targetAhead : Int) ≤ arb.availableRead
  · have hstep : renderStep targetAhead bufferSize block cmdRB arb =
        (((processCommands cmdRB).1, arb), false) := by
      simp only [renderStep]
      rw [if_pos h1]
    rw [hstep]
    refine ⟨fun _ => ⟨rfl, rfl⟩, fun hna _ => absurd h1 hna, Or.inl (le_refl _)⟩
  · by_cases h2 : arb.availableWrite < (bufferSize : Int)
    · have hstep : renderStep targetAhead bufferSize block cmdRB arb =
          (((processCommands cmdRB).1, arb), false) := by
        simp only [renderStep]
        rw [if_neg h1, if_pos h2]
      rw [hstep]
      refine ⟨fun _ => ⟨rfl, rfl⟩, fun _ hn2 => absurd h2 hn2, Or.inl (le_refl _)⟩
    · have hstep : renderStep targetAhead bufferSize block cmdRB arb =
          (((processCommands cmdRB).1, (arb.write block).1), true) := by
        simp only [renderStep]
        rw [if_neg h1, if_neg h2]
      have hguard : ¬ arb.availableWrite < ((block.length / arb.channelCount : Nat) : Int) := by
        rw [hframes]
        exact h2
      obtain ⟨hw, hr, _, _, _⟩ := ARB_write_accept_state arb block hguard
      rw [hframes] at hw
      rw [hstep]
      refine ⟨?_, fun _ _ => ⟨rfl, hw, hr⟩, ?_⟩
      · intro hor
        rcases hor with hor | hor
        · exact absurd hor h1
        · exact absurd hor h2
      · refine Or.inr ?_
        show ((arb.write block).1.writeIndex : Int) - ((arb.write block).1.readIndex : Int) ≤ _
        rw [hw, hr]
        simp only [AudioRingBuffer.availableRead] at h1
        push_cast
        omega

set_option maxRecDepth 4000 in
/-- Witness for C5: a 128-frame stereo block against an empty 4096-frame
buffer with a 1024-frame look-ahead target renders exactly one block. -/
theorem renderLoop_gating_witness :
    ((AudioRingBuffer.init Nat 0 2 4096).channelCount = 2 ∧
      (List.replicate 256 (0 : Nat)).length = 2 * 128) ∧
    ((((1024 : Nat) : Int) ≤ (AudioRingBuffer.init Nat 0 2 4096).availableRead ∨
        (AudioRingBuffer.init Nat 0 2 4096).availableWrite < ((128 : Nat) : Int)) →
      (renderStep 1024 128 (List.replicate 256 (0 : Nat)) (RingBuffer.init 16)
          (AudioRingBuffer.init Nat 0 2 4096)).1.2 = AudioRingBuffer.init Nat 0 2 4096 ∧
      (renderStep 1024 128 (List.replicate 256 (0 : Nat)) (RingBuffer.init 16)
          (AudioRingBuffer.init Nat 0 2 4096)).2 = false) ∧
    (¬ ((1024 : Nat) : Int) ≤ (AudioRingBuffer.init Nat 0 2 4096).availableRead →
      ¬ (AudioRingBuffer.init Nat 0 2 4096).availableWrite < ((128 : Nat) : Int) →
      (renderStep 1024 128 (List.replicate 256 (0 : Nat)) (RingBuffer.init 16)
          (AudioRingBuffer.init Nat 0 2 4096)).2 = true ∧
      (renderStep 1024 128 (List.replicate 256 (0 : Nat)) (RingBuffer.init 16)
          (AudioRingBuffer.init Nat 0 2 4096)).1.2.writeIndex =
        (AudioRingBuffer.init Nat 0 2 4096).writeIndex + 128 ∧
      (renderStep 1024 128 (List.replicate 256 (0 : Nat)) (RingBuffer.init 16)
          (AudioRingBuffer.init Nat 0 2 4096)).1.2.readIndex =
        (AudioRingBuffer.init Nat 0 2 4096).readIndex) ∧
    ((renderStep 1024 128 (List.replicate 256 (0 : Nat)) (RingBuffer.init 16)
          (AudioRingBuffer.init Nat 0 2 4096)).1.2.availableRead ≤
        (AudioRingBuffer.init Nat 0 2 4096).availableRead ∨
      (renderStep 1024 128 (List.replicate 256 (0 : Nat)) (RingBuffer.init 16)
          (AudioRingBuffer.init Nat 0 2 4096)).1.2.availableRead ≤
        ((1024 : Nat) : Int) + ((128 : Nat) : Int) - 1) :=
  ⟨⟨by decide, by decide⟩,
   renderLoop_gating Nat 1024 128 (List.replicate 256 0) (RingBuffer.init 16)
     (AudioRingBuffer.init Nat 0 2 4096) (by decide) (by decide)⟩

/-- C6: OutputCallback underrun behaviour.  With the ring buffer present,
the worklet `process` callback always returns `true`; on an underrun
(fewer than `quantumFrames` frames available) the single bounded read
attempt fails and the callback leaves the buffer state and both output
channels untouched (the pre-zeroed output stays silent); and in every case
the callback never writes an output sample at or beyond `quantumFrames`. -/
theorem outputCallback_underrun (α : Type) (arb : AudioRingBuffer α)
    (channelL channelR : Nat → α) (quantumFrames : Nat)
    (hcc : arb.channelCount = 2) (hcap : 0 < arb.capacity) :
    (VitalProcessor.process (some arb) channelL channelR quantumFrames).2.2 = true ∧
    (arb.availableRead < (quantumFrames : Int) →
      VitalProcessor.process (some arb) channelL channelR quantumFrames =
        (some arb, (channelL, channelR), true)) ∧
    (∀ j, quantumFrames ≤ j →
      (VitalProcessor.process (some arb) channelL channelR quantumFrames).2.1.1 j =
        channelL j ∧
      (VitalProcessor.process (some arb) channelL channelR quantumFrames).2.1.2 j =
        channelR j) := by
  obtain ⟨cc, cap, buf, w, r⟩ := arb
  have hcc' : cc = 2 := hcc
  subst hcc'
  have hcap' : 0 < cap := hcap
  refine ⟨rfl, ?_, ?_⟩
  · intro h
    have hrej := ARB_read_reject (AudioRingBuffer.mk 2 cap buf w r) channelL channelR
      quantumFrames h
    simp only [VitalProcessor.process, hrej]
  · intro j hj
    by_cases hg : (AudioRingBuffer.mk 2 cap buf w r : AudioRingBuffer α).availableRead <
        (quantumFrames : Int)
    · have hrej := ARB_read_reject (AudioRingBuffer.mk 2 cap buf w r) channelL channelR
        quantumFrames hg
      simp [VitalProcessor.process, hrej]
    · simp only [VitalProcessor.process, AudioRingBuffer.read]
      rw [if_neg hg]
      by_cases hb : (r % cap) * 2 + quantumFrames * 2 ≤ cap * 2
      · rw [if_pos hb]
        simp only [deinterleave]
        constructor
        · rw [if_neg (by omega)]
        · rw [if_neg (by omega)]
      · rw [if_neg hb]
        have hrm : r % cap < cap := Nat.mod_lt _ hcap'
        have hle : cap * 2 - (r % cap) * 2 ≤ quantumFrames * 2 := by omega
        have hfcf : (cap * 2 - (r % cap) * 2) / 2 ≤ quantumFrames := by
          calc (cap * 2 - (r % cap) * 2) / 2 ≤ quantumFrames * 2 / 2 :=
                Nat.div_le_div_right hle
            _ = quantumFrames := Nat.mul_div_cancel quantumFrames (by norm_num)
        simp only [deinterleave]
        constructor
        · rw [if_neg (by omega), if_neg (by omega)]
        · rw [if_neg (by omega), if_neg (by omega)]

/-- Witness for C6: an empty 4096-frame buffer underruns on a 128-frame
quantum; the callback returns `true` with all state and outputs unchanged
and never touches samples at or beyond the quantum. -/
theorem outputCallback_underrun_witness :
    ((AudioRingBuffer.init Nat 0 2 4096).channelCount = 2 ∧
      0 < (AudioRingBuffer.init Nat 0 2 4096).capacity ∧
      (AudioRingBuffer.init Nat 0 2 4096).availableRead < ((128 : Nat) : Int)) ∧
    ((VitalProcessor.process (some (AudioRingBuffer.init Nat 0 2 4096))
        (fun _ => 0) (fun _ => 0) 128).2.2 = true ∧
      ((AudioRingBuffer.init Nat 0 2 4096).availableRead < ((128 : Nat) : Int) →
        VitalProcessor.process (some (AudioRingBuffer.init Nat 0 2 4096))
            (fun _ => 0) (fun _ => 0) 128 =
          (some (AudioRingBuffer.init Nat 0 2 4096), ((fun _ => 0), (fun _ => 0)), true)) ∧
      (∀ j, 128 ≤ j →
        (VitalProcessor.process (some (AudioRingBuffer.init Nat 0 2 4096))
            (fun _ => 0) (fun _ => 0) 128).2.1.1 j = (fun _ => (0 : Nat)) j ∧
        (VitalProcessor.process (some (AudioRingBuffer.init Nat 0 2 4096))
            (fun _ => 0) (fun _ => 0) 128).2.1.2 j = (fun _ => (0 : Nat)) j)) :=
  ⟨⟨by decide, by decide, by decide⟩,
   outputCallback_underrun Nat (AudioRingBuffer.init Nat 0 2 4096)
     (fun _ => 0) (fun _ => 0) 128 (by decide) (by decide)⟩

theorem write_size (rb : RingBuffer) (data : List Nat) : (rb.write data).1.size = rb.size := by
  simp only [RingBuffer.write]
  by_cases h : (rb.size : Int) - ((rb.writeIndex : Int) - (rb.readIndex : Int)) <
      ((data.length + 1 : Nat) : Int)
  · rw [if_pos h]
  · rw [if_neg h]

theorem noteRoundTrip (size note : Nat) (v : ℚ)
    (hsize : 7 ≤ size) (hnote : note < 256) (hv0 : 0 ≤ v) (hv1 : v ≤ 1) :
    ((RingBuffer.init size).write (noteOnRecord note v)).2 = true ∧
    (((RingBuffer.init size).write (noteOnRecord note v)).1.write (noteOffRecord note)).2 = true ∧
    (processCommands (((RingBuffer.init size).write (noteOnRecord note v)).1.write
        (noteOffRecord note)).1).2 =
      [EngineCall.noteOn note ((Int.toNat ⌊v * 127⌋ : ℚ) / 127), EngineCall.noteOff note] := by
  have hvb : Int.toNat ⌊v * 127⌋ ≤ 127 := by
    have h127 : v * 127 ≤ 127 := by nlinarith
    have h1 : ⌊v * 127⌋ ≤ (127 : ℤ) := by
      have h2 := Int.floor_le_floor h127
      simpa using h2
    omega
  have hvp1 : validPayload (noteOnRecord note v) := by
    refine ⟨by simp [noteOnRecord], ?_⟩
    intro b hb
    simp [noteOnRecord] at hb
    rcases hb with h | h | h <;> omega
  have hvp2 : validPayload (noteOffRecord note) := by
    refine ⟨by simp [noteOffRecord], ?_⟩
    intro b hb
    simp [noteOffRecord] at hb
    rcases hb with h | h <;> omega
  have hlen1 : (noteOnRecord note v).length = 3 := by simp [noteOnRecord]
  have hlen2 : (noteOffRecord note).length = 2 := by simp [noteOffRecord]
  obtain ⟨ht1, hinv1⟩ := write_inv (RingBuffer.init size) [] (noteOnRecord note v)
    (init_inv size) hvp1 (by rw [hlen1]; simp [encLen, RingBuffer.init]; omega)
  obtain ⟨ht2, hinv2⟩ := write_inv ((RingBuffer.init size).write (noteOnRecord note v)).1
    [noteOnRecord note v] (noteOffRecord note) hinv1 hvp2
    (by rw [hlen2, write_size]; simp [encLen, hlen1, RingBuffer.init]; omega)
  refine ⟨ht1, ht2, ?_⟩
  have hread := read_of_inv _ _ hinv2
  simp only [processCommands, hread]
  have hX : Int.toNat ⌊v * 127⌋ % 256 = Int.toNat ⌊v * 127⌋ := Nat.mod_eq_of_lt (by omega)
  have hN : note % 256 = note := Nat.mod_eq_of_lt hnote
  simp [interpretCommand, noteOnRecord, noteOffRecord, CMD_NOTE_ON, CMD_NOTE_OFF, hX, hN]

/-- C7 counterexample: the original claim "the engine receives
`_note_on(60, 0.8)` with the exact original arguments" is false.  After
`noteOn(60, 0.8)` and `noteOff(60)` are routed through the control queue,
the worker drain calls `_note_on(60, 101/127)`: the SDK quantizes the
velocity to `Math.floor(0.8 * 127) = 101` and the worker divides by 127,
and `101/127 ≠ 0.8`. -/
theorem noteEvent_delivery_cex :
    (processCommands (((RingBuffer.init 4096).write (noteOnRecord 60 (4 / 5))).1.write
        (noteOffRecord 60)).1).2 ≠
      [EngineCall.noteOn 60 (4 / 5), EngineCall.noteOff 60] := by
  have h := (noteRoundTrip 4096 60 (4 / 5) (by norm_num) (by norm_num) (by norm_num)
    (by norm_num)).2.2
  rw [h]
  have hfl : (⌊(4 / 5 : ℚ) * 127⌋ : ℤ) = 101 := by
    rw [Int.floor_eq_iff]
    constructor
    · norm_num
    · norm_num
  rw [hfl]
  intro hcontra
  have hq : ((Int.toNat 101 : ℚ) / 127) = 4 / 5 := by
    have := List.head_eq_of_cons_eq hcontra
    injection this
  have h101 : Int.toNat 101 = 101 := rfl
  rw [h101] at hq
  norm_num at hq

/-- C7 (amended): Exact note-event delivery in dual-context mode, with
7-bit velocity quantization.  For `noteOn(note, v)` followed by
`noteOff(note)` routed through the ControlQueue, the engine receives
exactly two calls in order: `_note_on(note, ⌊v·127⌋/127)` — the note value
exact, the velocity quantized to `Math.floor(v * 127) / 127` — then
`_note_off(note)` with the exact note value. -/
theorem noteEvent_delivery (size note : Nat) (v : ℚ)
    (hsize : 7 ≤ size) (hnote : note < 256) (hv0 : 0 ≤ v) (hv1 : v ≤ 1) :
    ((RingBuffer.init size).write (noteOnRecord note v)).2 = true ∧
    (((RingBuffer.init size).write (noteOnRecord note v)).1.write (noteOffRecord note)).2 = true ∧
    (processCommands (((RingBuffer.init size).write (noteOnRecord note v)).1.write
        (noteOffRecord note)).1).2 =
      [EngineCall.noteOn note ((Int.toNat ⌊v * 127⌋ : ℚ) / 127), EngineCall.noteOff note] :=
  noteRoundTrip size note v hsize hnote hv0 hv1

/-- Witness for C7 at `size = 4096`, `note = 60`, `v = 1`: both writes are
accepted and the engine receives `_note_on(60, 127/127)` then
`_note_off(60)`. -/
theorem noteEvent_delivery_witness :
    ((7 : Nat) ≤ 4096 ∧ (60 : Nat) < 256 ∧ (0 : ℚ) ≤ 1 ∧ (1 : ℚ) ≤ 1) ∧
    (((RingBuffer.init 4096).write (noteOnRecord 60 1)).2 = true ∧
    (((RingBuffer.init 4096).write (noteOnRecord 60 1)).1.write (noteOffRecord 60)).2 = true ∧
    (processCommands (((RingBuffer.init 4096).write (noteOnRecord 60 1)).1.write
        (noteOffRecord 60)).1).2 =
      [EngineCall.noteOn 60 ((Int.toNat ⌊(1 : ℚ) * 127⌋ : ℚ) / 127), EngineCall.noteOff 60]) :=
  ⟨⟨by norm_num, by norm_num, by norm_num, by norm_num⟩,
   noteEvent_delivery 4096 60 1 (by norm_num) (by norm_num) (by norm_num) (by norm_num)⟩

/-- C8: Degraded single-context fallback.  When the dual-context pipeline
cannot be established (worklet environment unavailable or its
initialization throws), the audio store retries with `useWorklet = false`
and ends up initialized in the single-context backend: the engine handle
lives in the calling context, no command ring buffer and no audio ring
buffer are allocated, `noteOn`/`noteOff` call `_note_on`/`_note_off`
directly on the engine with the unmodified arguments, and each output
quantum triggers one synchronous engine render. -/
theorem degraded_fallback (α : Type) (z : α) (note frames : Nat) (v : ℚ) :
    ∃ sdk : SDKModel α,
      initAudioStore α false false z = Except.ok sdk ∧
      sdk.useWorklet = false ∧
      sdk.initialized = true ∧
      sdk.ringBuffer = none ∧
      sdk.audioRingBuffer = none ∧
      sdk.moduleInstance = some [] ∧
      (sdk.noteOn note v).moduleInstance = some [EngineCall.noteOn note v] ∧
      ((sdk.noteOn note v).noteOff note).moduleInstance =
        some [EngineCall.noteOn note v, EngineCall.noteOff note] ∧
      (sdk.onAudioProcess frames).moduleInstance = some [EngineCall.render frames] := by
  refine ⟨_, rfl, rfl, rfl, rfl, rfl, rfl, ?_, ?_, ?_⟩
  · simp [SDKModel.noteOn]
  · simp [SDKModel.noteOn, SDKModel.noteOff]
  · simp [SDKModel.onAudioProcess]

/-- C9: Preset-load failure atomicity.  A payload whose host-side decode
or parse step fails (gunzip, UTF-8, `JSON.parse`) makes `loadPreset`
reject with the preset-load failure before any worker post or engine call,
and the SDK state — mode flags, ring buffers, worker posts, and the entire
engine call history (currently sounding notes included) — is returned
unchanged, so the pipeline remains ready with the prior engine state. -/
theorem presetLoadFailure_atomic (α : Type) (sdk : SDKModel α)
    (hinit : sdk.initialized = true) :
    sdk.loadPreset PresetPayload.malformed = (sdk, Except.error "PresetLoadFailure") := by
  simp [SDKModel.loadPreset, hinit]

/-- Witness for C9: a concrete initialized dual-context SDK state rejects a
malformed preset and is returned entirely unchanged. -/
theorem presetLoadFailure_atomic_witness :
    (SDKModel.mk true true true none (some (RingBuffer.init 4096))
        (some (AudioRingBuffer.init Nat 0 2 4096)) []).initialized = true ∧
    (SDKModel.mk true true true none (some (RingBuffer.init 4096))
        (some (AudioRingBuffer.init Nat 0 2 4096)) []).loadPreset PresetPayload.malformed =
      (SDKModel.mk true true true none (some (RingBuffer.init 4096))
        (some (AudioRingBuffer.init Nat 0 2 4096)) [], Except.error "PresetLoadFailure") :=
  ⟨rfl, presetLoadFailure_atomic Nat
    (SDKModel.mk true true true none (some (RingBuffer.init 4096))
      (some (AudioRingBuffer.init Nat 0 2 4096)) []) rfl⟩

set_option maxRecDepth 8000 in
/-- C10: `RingBuffer.write` does not enforce the one-byte length-prefix
limit.  A 256-byte record that fits the free space is accepted (`write`
returns `true`) while the single-byte length prefix stores only
`256 % 256 = 0`; the subsequent drain therefore mis-decodes the region —
here it delivers two records (an empty one and a 255-byte one) instead of
the single record that was written — and the FIFO round trip fails
silently. -/
theorem lengthPrefix_truncation :
    ((RingBuffer.init 4096).write (255 :: List.replicate 255 7)).2 = true ∧
    ((RingBuffer.init 4096).write (255 :: List.replicate 255 7)).1.buffer 0 =
      (255 :: List.replicate 255 7).length % 256 ∧
    (255 :: List.replicate 255 7).length % 256 ≠ (255 :: List.replicate 255 7).length ∧
    (((RingBuffer.init 4096).write (255 :: List.replicate 255 7)).1.read).2 ≠
      [255 :: List.replicate 255 7] := by
  have hlen : (255 :: List.replicate 255 7 : List Nat).length = 256 := by simp
  have hguard : ¬ (((RingBuffer.init 4096).size : Int) -
      (((RingBuffer.init 4096).writeIndex : Int) - ((RingBuffer.init 4096).readIndex : Int)) <
      ((((255 : Nat) :: List.replicate 255 7).length + 1 : Nat) : Int)) := by
    rw [hlen]
    decide
  have hacc := write_accept (RingBuffer.init 4096) (255 :: List.replicate 255 7) hguard
  rw [hlen] at hacc
  simp only [RingBuffer.init] at hacc
  norm_num at hacc
  have hB0 : writeData 4096 (storeByte 4096 (fun _ => 0) 0 256) 1
      (255 :: List.replicate 255 7) 0 = 0 := by
    rw [writeData_preserve 4096 _ 1 _ 0 ?_]
    · simp [storeByte]
    · intro i hi
      rw [hlen] at hi
      simpa using (mod_ne_of_sub_lt 4096 0 (1 + i) (by omega) (by omega)).symm
  have hB1 : writeData 4096 (storeByte 4096 (fun _ => 0) 0 256) 1
      (255 :: List.replicate 255 7) 1 = 255 := by
    have h := writeData_get 4096 (255 :: List.replicate 255 7) 1
      (storeByte 4096 (fun _ => 0) 0 256) 0 (by rw [hlen]; norm_num) (by rw [hlen]; norm_num)
    simpa using h
  simp only [RingBuffer.init]
  rw [hacc]
  refine ⟨rfl, ?_, ?_, ?_⟩
  · rw [hlen]
    norm_num
    exact hB0
  · rw [hlen]
    decide
  · simp only [RingBuffer.read]
    norm_num
    rw [readLoop_snd_go 4096 _ 257 257 0 (by norm_num) (by norm_num)]
    norm_num
    rw [hB0]
    norm_num
    rw [readLoop_snd_go 4096 _ 257 256 1 (by norm_num) (by norm_num)]
    norm_num
    rw [hB1]
    norm_num
    rw [readLoop_stop 4096 _ 257 255 257 (by norm_num)]
    simp
